import Mathlib

/-!
Verification of the frame-cadence / detection-aggregation / persistence core
of the YOLO detection pipeline (`main.py`, `database.py`, `queary_db.py`,
`config.py`).

Conventions of the embedding:
* Python floats (confidences, box coordinates, timestamps) are modelled as
  exact rationals `ℚ`; timestamps as integers `ℤ` (an arbitrary linear time
  scale; only their order matters to the code under verification).
* Python dicts built by `defaultdict(int)` and iterated with `.items()` are
  modelled as insertion-ordered association lists `List (String × Nat)`;
  the process-lifetime `class_counts` mapping, which is only ever read
  pointwise, is modelled as a total function `String → Nat` with default 0.
* The MongoDB collection is modelled as the list of inserted documents, in
  insertion order; `delete_many`/`aggregate` act on that list.
-/

namespace Yolo

/-- Bounding box of one detection, `{x1, y1, x2, y2}` (main.py:90-95). -/
structure BBox where
  x1 : ℚ
  y1 : ℚ
  x2 : ℚ
  y2 : ℚ
deriving DecidableEq, Repr

/-- One raw detection emitted by the (black-box) detector for one frame:
class name, confidence and box corners (main.py:75-77,86). -/
structure Detection where
  class_name : String
  confidence : ℚ
  box : BBox
deriving DecidableEq, Repr

/-- Detection data as stored inside a persisted document (main.py:87-96):
confidence rounded to 4 digits, box coordinates to 2 digits.  Python's
`round` on floats is modelled as nearest-integer rounding on rationals. -/
structure StoredDetection where
  class_name : String
  confidence : ℚ
  bounding_box : BBox
deriving DecidableEq, Repr

/-- Rounding to `n` decimal digits, modelling `round(x, n)` on exact
rationals as round-half-up: the numerator of `q·10^n` rounded to the nearest
integer (computed as `⌊(2·num·10^n + den) / (2·den)⌋` by floor division)
over `10^n`. -/
def roundTo (n : Nat) (q : ℚ) : ℚ :=
  mkRat ((2 * q.num * (10 : ℤ) ^ n + (q.den : ℤ)).fdiv (2 * (q.den : ℤ))) (10 ^ n)

/-- The `detection_data` dict built for each kept detection (main.py:87-96). -/
def detection_data (d : Detection) : StoredDetection :=
  { class_name := d.class_name
    confidence := roundTo 4 d.confidence
    bounding_box :=
      { x1 := roundTo 2 d.box.x1, y1 := roundTo 2 d.box.y1
        x2 := roundTo 2 d.box.x2, y2 := roundTo 2 d.box.y2 } }

/-- The `model_info` sub-document (main.py:149-152). -/
structure ModelInfo where
  model_name : String
  confidence_threshold : ℚ
deriving DecidableEq, Repr

/-- Per-frame class-count snapshot: the `frame_counts` defaultdict
(main.py:68), as an insertion-ordered association list with unique keys. -/
abbrev Snapshot : Type := List (String × Nat)

/-- One persisted document, the dict built in `_save_to_mongodb`
(main.py:141-153). -/
structure DetectionEvent where
  timestamp : ℤ
  video_source : String
  frame_number : Nat
  processed_frame_number : Nat
  total_objects_detected : Nat
  object_counts : Snapshot
  detections : List StoredDetection
  model_info : ModelInfo
deriving DecidableEq, Repr

/-- The configuration values the core consumes (config.py).  `dbConnected`
models `self.db is not None` in `ObjectDetector`: MongoDB enabled and the
connection in `__init__` succeeded (main.py:19-26). -/
structure Config where
  FRAME_SKIP : Nat
  TARGET_CLASSES : List String
  MODEL_NAME : String
  CONFIDENCE_THRESHOLD : ℚ
  dbConnected : Bool
deriving DecidableEq, Repr

/-! ## Frame cadence (main.py:56-62)

Each loop iteration increments `frame_count`, skips the frame unless the
incremented count is a multiple of `FRAME_SKIP`, and increments
`processed_frames` for processed frames. -/

/-- A raw frame with 1-based index `i` is processed iff
`i % FRAME_SKIP == 0` (main.py:59). -/
def shouldProcess (skip i : Nat) : Bool := i % skip == 0

/-- One iteration's effect on the `(frame_count, processed_frames)` pair
(main.py:56-62). -/
def cadenceStep (skip : Nat) (st : Nat × Nat) : Nat × Nat :=
  let raw := st.1 + 1
  if raw % skip ≠ 0 then (raw, st.2) else (raw, st.2 + 1)

/-- The counter pair after reading `m` raw frames, both counters starting
at 0 (main.py:15-16). -/
def cadenceRun (skip : Nat) : Nat → Nat × Nat
  | 0 => (0, 0)
  | m + 1 => cadenceStep skip (cadenceRun skip m)

lemma cadenceRun_fst (skip m : Nat) : (cadenceRun skip m).1 = m := by
  induction m with
  | zero => rfl
  | succ m ih =>
    simp only [cadenceRun, cadenceStep]
    split <;> simp [ih]

lemma cadenceRun_snd_div (skip m : Nat) : (cadenceRun skip m).2 = m / skip := by
  induction m with
  | zero => simp [cadenceRun]
  | succ m ih =>
    simp only [cadenceRun, cadenceStep, cadenceRun_fst]
    rw [Nat.succ_div]
    by_cases h : (m + 1) % skip = 0
    · have hd : skip ∣ m + 1 := Nat.dvd_iff_mod_eq_zero.mpr h
      simp [h, hd, ih]
    · have hd : ¬ skip ∣ m + 1 := fun hc => h (Nat.dvd_iff_mod_eq_zero.mp hc)
      simp [h, hd, ih]

lemma cadenceRun_snd_count (skip m : Nat) :
    (cadenceRun skip m).2 = ((List.range m).map (fun j => j + 1)).countP (shouldProcess skip) := by
  induction m with
  | zero => rfl
  | succ m ih =>
    simp only [cadenceRun, cadenceStep, cadenceRun_fst]
    rw [List.range_succ, List.map_append, List.countP_append]
    by_cases h : (m + 1) % skip = 0
    · simp [h, ih, shouldProcess, List.countP_cons]
    · simp [h, ih, shouldProcess, List.countP_cons]

/-- C2.  With skip interval `N ≥ 1`, a raw frame is processed iff its
1-based index is a multiple of `N`; after `m` raw frames the raw counter is
exactly `m` and the processed counter equals the number of qualifying
indices among `1..m` (which is `m / N`); both counters start at 0 and are
computed by pure iteration, never reset. -/
theorem C2_cadence (skip m : Nat) (h1 : 1 ≤ skip) :
    (∀ i : Nat, shouldProcess skip i = true ↔ skip ∣ i)
    ∧ (cadenceRun skip m).1 = m
    ∧ (cadenceRun skip m).2 = ((List.range m).map (fun j => j + 1)).countP (shouldProcess skip)
    ∧ (cadenceRun skip m).2 = m / skip := by
  refine ⟨fun i => ?_, cadenceRun_fst skip m, cadenceRun_snd_count skip m,
    cadenceRun_snd_div skip m⟩
  simp [shouldProcess, Nat.dvd_iff_mod_eq_zero]

/-- Witness for C2: skip interval 3 over 7 raw frames: indices 3 and 6
qualify, the raw counter reaches 7 and the processed counter 2. -/
theorem C2_cadence_witness :
    ((∀ i : Nat, shouldProcess 3 i = true ↔ 3 ∣ i)
      ∧ (cadenceRun 3 7).1 = 7
      ∧ (cadenceRun 3 7).2 = ((List.range 7).map (fun j => j + 1)).countP (shouldProcess 3)
      ∧ (cadenceRun 3 7).2 = 7 / 3)
    ∧ (cadenceRun 3 7).2 = 2 :=
  ⟨C2_cadence 3 7 (by decide), by decide⟩

/-! ## Running-maximum counters (main.py:14, 107-109)

`self.class_counts` is a `defaultdict(int)`; after each processed frame the
loop `for cls_name, count in frame_counts.items(): self.class_counts[cls_name]
= max(self.class_counts[cls_name], count)` folds the frame snapshot in. -/

/-- Value of a snapshot at a class: dict lookup with `defaultdict` default 0. -/
def snapVal (s : Snapshot) (c : String) : Nat := (s.lookup c).getD 0

/-- Fold one frame snapshot into the running `class_counts` map
(main.py:107-109), one `max` update per snapshot item, in order. -/
def foldSnapshot (cc : String → Nat) : Snapshot → (String → Nat)
  | [] => cc
  | p :: rest => foldSnapshot (Function.update cc p.1 (max (cc p.1) p.2)) rest

/-- Running counters after folding a whole sequence of per-frame snapshots. -/
def foldAll (cc : String → Nat) : List Snapshot → (String → Nat)
  | [] => cc
  | s :: ss => foldAll (foldSnapshot cc s) ss

/-- Maximum of the values a (possibly duplicated-key) association list holds
at class `c`; for a genuine dict this is just the value at `c` (or 0). -/
def snapMax (s : Snapshot) (c : String) : Nat :=
  ((s.filter (fun p => p.1 == c)).map Prod.snd).foldr max 0

lemma snapMax_cons (k : String) (v : Nat) (rest : Snapshot) (c : String) :
    snapMax ((k, v) :: rest) c
      = if k = c then max v (snapMax rest c) else snapMax rest c := by
  by_cases h : k = c
  · subst h
    simp [snapMax, List.filter_cons]
  · simp [snapMax, List.filter_cons, beq_false_of_ne h, h]

lemma snapVal_cons (k : String) (v : Nat) (rest : Snapshot) (c : String) :
    snapVal ((k, v) :: rest) c = if k = c then v else snapVal rest c := by
  by_cases h : k = c
  · subst h
    simp [snapVal, List.lookup_cons]
  · simp [snapVal, List.lookup_cons, beq_false_of_ne (Ne.symm h), h]

lemma foldSnapshot_apply (s : Snapshot) (cc : String → Nat) (c : String) :
    foldSnapshot cc s c = max (cc c) (snapMax s c) := by
  induction s generalizing cc with
  | nil => simp [foldSnapshot, snapMax]
  | cons p rest ih =>
    obtain ⟨k, v⟩ := p
    rw [foldSnapshot, ih, snapMax_cons]
    by_cases h : k = c
    · subst h
      rw [if_pos rfl]
      simp only [Function.update_same]
      rw [max_assoc]
    · rw [if_neg h]
      simp only [Function.update_noteq (fun hc => h hc.symm)]

lemma snapMax_of_not_mem (s : Snapshot) (c : String) (h : c ∉ s.map Prod.fst) :
    snapMax s c = 0 := by
  induction s with
  | nil => rfl
  | cons p rest ih =>
    obtain ⟨k, v⟩ := p
    simp only [List.map_cons, List.mem_cons] at h
    push_neg at h
    rw [snapMax_cons, if_neg (fun hc => h.1 hc.symm)]
    exact ih h.2

lemma snapMax_eq_snapVal (s : Snapshot) (c : String) (h : (s.map Prod.fst).Nodup) :
    snapMax s c = snapVal s c := by
  induction s with
  | nil => rfl
  | cons p rest ih =>
    obtain ⟨k, v⟩ := p
    simp only [List.map_cons, List.nodup_cons] at h
    rw [snapMax_cons, snapVal_cons]
    by_cases hc : k = c
    · subst hc
      rw [if_pos rfl, if_pos rfl, snapMax_of_not_mem rest k h.1]
      simp
    · rw [if_neg hc, if_neg hc]
      exact ih h.2

lemma foldAll_apply (ss : List Snapshot) (cc : String → Nat) (c : String) :
    foldAll cc ss c = max (cc c) ((ss.map (fun s => snapMax s c)).foldr max 0) := by
  induction ss generalizing cc with
  | nil => simp [foldAll]
  | cons s ss ih =>
    rw [foldAll, ih, foldSnapshot_apply]
    simp [max_assoc]

/-- C1.  Folding per-frame snapshots into the running counters: starting
from the all-zero `defaultdict`, after folding a sequence of snapshots (each
with unique keys, as Python dicts have) the value stored for class `c` is
the maximum over the snapshots of that snapshot's count for `c` (absent keys
counting 0) — not the sum; a single fold leaves classes absent from the
snapshot untouched; and every fold is pointwise monotone, so the running
counter for each class never decreases during a run. -/
theorem C1_running_max (ss : List Snapshot) (c : String)
    (h : ∀ s ∈ ss, (s.map Prod.fst).Nodup) :
    foldAll (fun _ => 0) ss c = (ss.map (fun s => snapVal s c)).foldr max 0
    ∧ (∀ (cc : String → Nat) (s : Snapshot), c ∉ s.map Prod.fst → foldSnapshot cc s c = cc c)
    ∧ (∀ (cc : String → Nat) (s : Snapshot), cc c ≤ foldSnapshot cc s c) := by
  refine ⟨?_, ?_, ?_⟩
  · rw [foldAll_apply]
    have : ss.map (fun s => snapMax s c) = ss.map (fun s => snapVal s c) :=
      List.map_congr_left (fun s hs => snapMax_eq_snapVal s c (h s hs))
    simp [this]
  · intro cc s hs
    rw [foldSnapshot_apply, snapMax_of_not_mem s c hs]
    simp
  · intro cc s
    rw [foldSnapshot_apply]
    exact le_max_left _ _

/-- Witness for C1: snapshots {car 2} then {car 1, bus 3}: the running
counter for car ends at 2 (the max, not the sum 3). -/
theorem C1_running_max_witness :
    (foldAll (fun _ => 0) [[("car", 2)], [("car", 1), ("bus", 3)]] "car"
        = ([[("car", 2)], [("car", 1), ("bus", 3)]].map
            (fun s => snapVal s "car")).foldr max 0
      ∧ (∀ (cc : String → Nat) (s : Snapshot),
          "car" ∉ s.map Prod.fst → foldSnapshot cc s "car" = cc "car")
      ∧ (∀ (cc : String → Nat) (s : Snapshot), cc "car" ≤ foldSnapshot cc s "car"))
    ∧ foldAll (fun _ => 0) [[("car", 2)], [("car", 1), ("bus", 3)]] "car" = 2 :=
  ⟨C1_running_max [[("car", 2)], [("car", 1), ("bus", 3)]] "car" (by decide), by decide⟩

/-! ## Per-frame snapshot building and class filtering (main.py:68-97)

The detection loop builds `frame_counts` (a `defaultdict(int)`) and
`detections_list` together: a detection is dropped when `TARGET_CLASSES` is
non-empty and its class is not in it (main.py:80-81); otherwise its class
count is bumped (main.py:83) and its `detection_data` appended
(main.py:97). -/

/-- A detection is kept unless `TARGET_CLASSES` is truthy (non-empty) and
its class is not in it (main.py:80). -/
def keepDetection (target : List String) (c : String) : Bool :=
  !(!target.isEmpty && !(target.contains c))

/-- Increment the count of class `c` in a snapshot, inserting `(c, 1)` at
the end when absent — `frame_counts[class_name] += 1` on a `defaultdict`,
which preserves insertion order. -/
def bumpSnap : Snapshot → String → Snapshot
  | [], c => [(c, 1)]
  | (k, v) :: rest, c =>
    if k = c then (k, v + 1) :: rest else (k, v) :: bumpSnap rest c

/-- Sum of a snapshot's counts: `sum(frame_counts.values())`. -/
def sumSnap (s : Snapshot) : Nat := (s.map Prod.snd).sum

/-- The detection loop body over the remaining raw detections, carrying the
`(frame_counts, detections_list)` accumulator (main.py:72-97). -/
def buildFrameAux (target : List String) :
    Snapshot × List StoredDetection → List Detection → Snapshot × List StoredDetection
  | acc, [] => acc
  | acc, d :: ds =>
    if keepDetection target d.class_name then
      buildFrameAux target (bumpSnap acc.1 d.class_name, acc.2 ++ [detection_data d]) ds
    else
      buildFrameAux target acc ds

/-- For one processed frame, the `(frame_counts, detections_list)` pair the
loop produces from the detector's raw output (main.py:68-97). -/
def buildFrame (target : List String) (dets : List Detection) :
    Snapshot × List StoredDetection :=
  buildFrameAux target ([], []) dets

lemma keepDetection_eq_true (target : List String) (c : String) :
    keepDetection target c = true ↔ (target = [] ∨ c ∈ target) := by
  cases target with
  | nil => simp [keepDetection]
  | cons a l => simp [keepDetection]

lemma bumpSnap_sum (s : Snapshot) (c : String) :
    sumSnap (bumpSnap s c) = sumSnap s + 1 := by
  induction s with
  | nil => simp [bumpSnap, sumSnap]
  | cons p rest ih =>
    obtain ⟨k, v⟩ := p
    by_cases h : k = c
    · subst h
      simp [bumpSnap, sumSnap]
      omega
    · simp [bumpSnap, sumSnap, h] at ih ⊢
      omega

lemma bumpSnap_keys (s : Snapshot) (c : String) :
    (bumpSnap s c).map Prod.fst
      = if c ∈ s.map Prod.fst then s.map Prod.fst else s.map Prod.fst ++ [c] := by
  induction s with
  | nil => simp [bumpSnap]
  | cons p rest ih =>
    obtain ⟨k, v⟩ := p
    by_cases h : k = c
    · subst h
      simp [bumpSnap]
    · have hck : ¬ c = k := fun hc => h hc.symm
      by_cases hm : c ∈ rest.map Prod.fst
      · simp [bumpSnap, h, ih, hm, hck]
      · simp [bumpSnap, h, ih, hm, hck]

lemma bumpSnap_val (s : Snapshot) (c k : String) :
    snapVal (bumpSnap s c) k = if k = c then snapVal s k + 1 else snapVal s k := by
  induction s with
  | nil =>
    rw [show bumpSnap [] c = [(c, 1)] from rfl, snapVal_cons]
    by_cases h : k = c
    · subst h
      rw [if_pos rfl, if_pos rfl]
      rfl
    · rw [if_neg (fun hc : c = k => h hc.symm), if_neg h]
  | cons p rest ih =>
    obtain ⟨a, v⟩ := p
    by_cases ha : a = c
    · subst ha
      rw [show bumpSnap ((a, v) :: rest) a = (a, v + 1) :: rest from by simp [bumpSnap]]
      rw [snapVal_cons, snapVal_cons]
      by_cases hk : a = k
      · subst hk
        simp
      · simp only [if_neg hk]
        rw [if_neg (fun hc : k = a => hk hc.symm)]
    · rw [show bumpSnap ((a, v) :: rest) c = (a, v) :: bumpSnap rest c from by
        simp [bumpSnap, ha]]
      rw [snapVal_cons, snapVal_cons, ih]
      by_cases hk : a = k
      · subst hk
        simp [ha]
      · simp [hk]

lemma bumpSnap_pos (s : Snapshot) (c : String) (h : ∀ p ∈ s, 1 ≤ p.2) :
    ∀ p ∈ bumpSnap s c, 1 ≤ p.2 := by
  induction s with
  | nil =>
    intro p hp
    simp [bumpSnap] at hp
    subst hp
    exact le_refl 1
  | cons a rest ih =>
    obtain ⟨k, v⟩ := a
    intro p hp
    by_cases hk : k = c
    · subst hk
      rw [show bumpSnap ((k, v) :: rest) k = (k, v + 1) :: rest from by simp [bumpSnap]] at hp
      rcases List.mem_cons.mp hp with hp | hp
      · subst hp
        exact Nat.succ_le_succ (Nat.zero_le v)
      · exact h p (List.mem_cons_of_mem _ hp)
    · rw [show bumpSnap ((k, v) :: rest) c = (k, v) :: bumpSnap rest c from by
        simp [bumpSnap, hk]] at hp
      rcases List.mem_cons.mp hp with hp | hp
      · subst hp
        exact h (k, v) (List.mem_cons_self _ _)
      · exact ih (fun q hq => h q (List.mem_cons_of_mem _ hq)) p hp

lemma snapVal_of_mem (s : Snapshot) (k : String) (v : Nat)
    (hnd : (s.map Prod.fst).Nodup) (hm : (k, v) ∈ s) : snapVal s k = v := by
  induction s with
  | nil => simp at hm
  | cons p rest ih =>
    obtain ⟨a, w⟩ := p
    simp only [List.map_cons, List.nodup_cons] at hnd
    rcases List.mem_cons.mp hm with hp | hp
    · obtain ⟨h1, h2⟩ := Prod.mk.injEq .. ▸ hp
      subst h1
      subst h2
      rw [snapVal_cons, if_pos rfl]
    · have hk : k ∈ rest.map Prod.fst := List.mem_map_of_mem Prod.fst hp
      have hak : a ≠ k := fun hc => hnd.1 (hc ▸ hk)
      rw [snapVal_cons, if_neg hak]
      exact ih hnd.2 hp

lemma buildFrameAux_sum (target : List String) (ds : List Detection) :
    ∀ acc : Snapshot × List StoredDetection, sumSnap acc.1 = acc.2.length →
      sumSnap (buildFrameAux target acc ds).1 = (buildFrameAux target acc ds).2.length := by
  induction ds with
  | nil => exact fun acc h => h
  | cons d ds ih =>
    intro acc h
    simp only [buildFrameAux]
    by_cases hk : keepDetection target d.class_name = true
    · rw [if_pos hk]
      refine ih _ ?_
      simp [bumpSnap_sum, h]
    · rw [if_neg hk]
      exact ih acc h

lemma buildFrameAux_kept (target : List String) (ds : List Detection) :
    ∀ acc : Snapshot × List StoredDetection,
      (∀ e ∈ acc.2, keepDetection target e.class_name = true) →
      ∀ e ∈ (buildFrameAux target acc ds).2, keepDetection target e.class_name = true := by
  induction ds with
  | nil => exact fun acc h => h
  | cons d ds ih =>
    intro acc h
    simp only [buildFrameAux]
    by_cases hk : keepDetection target d.class_name = true
    · rw [if_pos hk]
      refine ih _ ?_
      intro e he
      rcases List.mem_append.mp he with he | he
      · exact h e he
      · rw [List.mem_singleton.mp he]
        exact hk
    · rw [if_neg hk]
      exact ih acc h

lemma buildFrameAux_keys_kept (target : List String) (ds : List Detection) :
    ∀ acc : Snapshot × List StoredDetection,
      (∀ k ∈ acc.1.map Prod.fst, keepDetection target k = true) →
      ∀ k ∈ (buildFrameAux target acc ds).1.map Prod.fst, keepDetection target k = true := by
  induction ds with
  | nil => exact fun acc h => h
  | cons d ds ih =>
    intro acc h
    simp only [buildFrameAux]
    by_cases hk : keepDetection target d.class_name = true
    · rw [if_pos hk]
      refine ih _ ?_
      intro k hkm
      rw [bumpSnap_keys] at hkm
      by_cases hmem : d.class_name ∈ acc.1.map Prod.fst
      · rw [if_pos hmem] at hkm
        exact h k hkm
      · rw [if_neg hmem] at hkm
        rcases List.mem_append.mp hkm with hkm | hkm
        · exact h k hkm
        · rw [List.mem_singleton.mp hkm]
          exact hk
    · rw [if_neg hk]
      exact ih acc h

lemma buildFrameAux_countP (target : List String) (ds : List Detection) :
    ∀ acc : Snapshot × List StoredDetection,
      (∀ c, snapVal acc.1 c = acc.2.countP (fun e => e.class_name == c)) →
      ∀ c, snapVal (buildFrameAux target acc ds).1 c
        = (buildFrameAux target acc ds).2.countP (fun e => e.class_name == c) := by
  induction ds with
  | nil => exact fun acc h => h
  | cons d ds ih =>
    intro acc h
    simp only [buildFrameAux]
    by_cases hk : keepDetection target d.class_name = true
    · rw [if_pos hk]
      refine ih _ ?_
      intro c
      rw [bumpSnap_val, List.countP_append]
      by_cases hc : c = d.class_name
      · subst hc
        rw [if_pos rfl, h d.class_name]
        simp [detection_data, List.countP_cons]
      · rw [if_neg hc, h c]
        have : ((detection_data d).class_name == c) = false :=
          beq_false_of_ne (fun he => hc (by simpa [detection_data] using he.symm))
        simp [List.countP_cons, this]
    · rw [if_neg hk]
      exact ih acc h

lemma buildFrameAux_nodup_pos (target : List String) (ds : List Detection) :
    ∀ acc : Snapshot × List StoredDetection,
      (acc.1.map Prod.fst).Nodup ∧ (∀ p ∈ acc.1, 1 ≤ p.2) →
      ((buildFrameAux target acc ds).1.map Prod.fst).Nodup
        ∧ ∀ p ∈ (buildFrameAux target acc ds).1, 1 ≤ p.2 := by
  induction ds with
  | nil => exact fun acc h => h
  | cons d ds ih =>
    intro acc h
    simp only [buildFrameAux]
    by_cases hk : keepDetection target d.class_name = true
    · rw [if_pos hk]
      refine ih _ ⟨?_, bumpSnap_pos _ _ h.2⟩
      rw [bumpSnap_keys]
      by_cases hmem : d.class_name ∈ acc.1.map Prod.fst
      · rw [if_pos hmem]
        exact h.1
      · rw [if_neg hmem]
        simp [List.nodup_append, h.1, hmem]
    · rw [if_neg hk]
      exact ih acc h

lemma buildFrameAux_nofilter (ds : List Detection) :
    ∀ acc : Snapshot × List StoredDetection,
      (buildFrameAux [] acc ds).2 = acc.2 ++ ds.map detection_data := by
  induction ds with
  | nil => simp [buildFrameAux]
  | cons d ds ih =>
    intro acc
    simp only [buildFrameAux]
    rw [if_pos (show keepDetection [] d.class_name = true from rfl), ih]
    simp

/-- C3.  Class filtering is exclusive: with a non-empty `TARGET_CLASSES`
filter, every key of the frame's class-count snapshot and every persisted
detection's class lie inside the filter (so a detection whose class is
outside the filter appears in neither); with the empty filter no detection
is dropped — the persisted list is exactly the detector's output, in order,
through `detection_data`. -/
theorem C3_class_filter (target : List String) (dets : List Detection) :
    (target ≠ [] →
      (∀ k ∈ (buildFrame target dets).1.map Prod.fst, k ∈ target)
      ∧ (∀ e ∈ (buildFrame target dets).2, e.class_name ∈ target))
    ∧ (buildFrame [] dets).2 = dets.map detection_data := by
  constructor
  · intro hne
    constructor
    · intro k hk
      have := buildFrameAux_keys_kept target dets ([], []) (by simp) k hk
      rcases (keepDetection_eq_true target k).mp this with h | h
      · exact absurd h hne
      · exact h
    · intro e he
      have := buildFrameAux_kept target dets ([], []) (by simp) e he
      rcases (keepDetection_eq_true target e.class_name).mp this with h | h
      · exact absurd h hne
      · exact h
  · rw [buildFrame, buildFrameAux_nofilter]
    simp

lemma buildFrame_sum (target : List String) (dets : List Detection) :
    sumSnap (buildFrame target dets).1 = (buildFrame target dets).2.length :=
  buildFrameAux_sum target dets ([], []) rfl

lemma buildFrame_counts (target : List String) (dets : List Detection) :
    ((buildFrame target dets).1.map Prod.fst).Nodup
    ∧ (∀ p ∈ (buildFrame target dets).1, 1 ≤ p.2)
    ∧ ∀ c, snapVal (buildFrame target dets).1 c
        = (buildFrame target dets).2.countP (fun e => e.class_name == c) := by
  have h1 := buildFrameAux_nodup_pos target dets ([], []) (by simp)
  have h2 := buildFrameAux_countP target dets ([], []) (by simp [snapVal])
  exact ⟨h1.1, h1.2, h2⟩

/-! ## The processing loop (main.py:50-136) and persistence (main.py:138-158)

A frame read from the source is abstracted as the detection list the
black-box detector would return for it, together with the environment facts
the loop interacts with: whether the MongoDB insert for this frame would
succeed (`persistOk`; `insert_detection` raising models `False`) and the
`datetime.utcnow()` value at save time (`now`). -/

/-- One raw frame as the loop sees it. -/
structure FrameInput where
  dets : List Detection
  persistOk : Bool
  now : ℤ
deriving DecidableEq, Repr

/-- The `ObjectDetector` state the loop mutates: `frame_count`,
`processed_frames`, `class_counts` (main.py:14-16), plus the collection of
documents inserted so far and the number of reported insert errors
(main.py:158). -/
structure PipelineState where
  frame_count : Nat
  processed_frames : Nat
  class_counts : String → Nat
  saved : List DetectionEvent
  insert_errors : Nat

/-- The document assembled in `_save_to_mongodb` (main.py:141-153). -/
def mkDocument (cfg : Config) (source : String) (now : ℤ)
    (frame_number processed_frame_number : Nat)
    (frame_counts : Snapshot) (detections_list : List StoredDetection) : DetectionEvent :=
  { timestamp := now
    video_source := source
    frame_number := frame_number
    processed_frame_number := processed_frame_number
    total_objects_detected := detections_list.length
    object_counts := frame_counts
    detections := detections_list
    model_info :=
      { model_name := cfg.MODEL_NAME
        confidence_threshold := cfg.CONFIDENCE_THRESHOLD } }

/-- One iteration of the `while` loop for one raw frame (main.py:51-116):
increment `frame_count`, skip unless it is a multiple of `FRAME_SKIP`,
increment `processed_frames`, build the frame snapshot and detection list,
fold the snapshot into `class_counts`, and insert a document when the DB is
connected and the detection list is non-empty (a failing insert is caught
and reported, main.py:157-158). -/
def stepFrame (cfg : Config) (source : String) (st : PipelineState) (fr : FrameInput) :
    PipelineState :=
  let raw := st.frame_count + 1
  if raw % cfg.FRAME_SKIP ≠ 0 then
    { st with frame_count := raw }
  else
    let fc := buildFrame cfg.TARGET_CLASSES fr.dets
    let st1 : PipelineState :=
      { frame_count := raw
        processed_frames := st.processed_frames + 1
        class_counts := foldSnapshot st.class_counts fc.1
        saved := st.saved
        insert_errors := st.insert_errors }
    if cfg.dbConnected && !fc.2.isEmpty then
      if fr.persistOk then
        { st1 with
            saved := st1.saved
              ++ [mkDocument cfg source fr.now raw (st.processed_frames + 1) fc.1 fc.2] }
      else
        { st1 with insert_errors := st1.insert_errors + 1 }
    else st1

/-- Fresh `ObjectDetector` state (main.py:14-16). -/
def initState : PipelineState :=
  { frame_count := 0, processed_frames := 0, class_counts := fun _ => 0
    saved := [], insert_errors := 0 }

/-- `process_video` over a finite stream of raw frames (main.py:28-136). -/
def process_video (cfg : Config) (source : String) (frames : List FrameInput) :
    PipelineState :=
  frames.foldl (stepFrame cfg source) initState

lemma stepFrame_saved (cfg : Config) (source : String) (st : PipelineState) (fr : FrameInput) :
    (stepFrame cfg source st fr).saved = st.saved
    ∨ ((buildFrame cfg.TARGET_CLASSES fr.dets).2 ≠ []
        ∧ (stepFrame cfg source st fr).saved
          = st.saved ++ [mkDocument cfg source fr.now (st.frame_count + 1)
              (st.processed_frames + 1) (buildFrame cfg.TARGET_CLASSES fr.dets).1
              (buildFrame cfg.TARGET_CLASSES fr.dets).2]) := by
  by_cases h1 : (st.frame_count + 1) % cfg.FRAME_SKIP ≠ 0
  · left
    simp only [stepFrame, if_pos h1]
  · by_cases h2 : (cfg.dbConnected && !(buildFrame cfg.TARGET_CLASSES fr.dets).2.isEmpty) = true
    · by_cases h3 : fr.persistOk = true
      · right
        constructor
        · have hx := (Bool.and_eq_true _ _).mp h2
          simpa [List.isEmpty_iff] using hx.2
        · simp only [stepFrame, if_neg h1, if_pos h2, if_pos h3]
      · left
        simp only [stepFrame, if_neg h1, if_pos h2, if_neg h3]
    · left
      simp only [stepFrame, if_neg h1, if_neg h2]

lemma foldl_saved_inv (cfg : Config) (source : String) (P : DetectionEvent → Prop)
    (hP : ∀ (now : ℤ) (raw pn : Nat) (ds : List Detection),
        (buildFrame cfg.TARGET_CLASSES ds).2 ≠ [] →
        P (mkDocument cfg source now raw pn (buildFrame cfg.TARGET_CLASSES ds).1
            (buildFrame cfg.TARGET_CLASSES ds).2)) :
    ∀ (frames : List FrameInput) (st : PipelineState),
      (∀ e ∈ st.saved, P e) →
      ∀ e ∈ (frames.foldl (stepFrame cfg source) st).saved, P e := by
  intro frames
  induction frames with
  | nil => exact fun st h => h
  | cons fr rest ih =>
    intro st h
    rw [List.foldl_cons]
    refine ih _ ?_
    intro e he
    rcases stepFrame_saved cfg source st fr with hs | ⟨hne, hs⟩
    · rw [hs] at he
      exact h e he
    · rw [hs] at he
      rcases List.mem_append.mp he with he1 | he1
      · exact h e he1
      · rw [List.mem_singleton.mp he1]
        exact hP fr.now _ _ fr.dets hne

lemma stepFrame_frame_count (cfg : Config) (source : String)
    (st : PipelineState) (fr : FrameInput) :
    (stepFrame cfg source st fr).frame_count = st.frame_count + 1 := by
  by_cases h1 : (st.frame_count + 1) % cfg.FRAME_SKIP ≠ 0
  · simp only [stepFrame, if_pos h1]
  · simp only [stepFrame, if_neg h1]
    split
    · split <;> rfl
    · rfl

lemma stepFrame_processed (cfg : Config) (source : String)
    (st : PipelineState) (fr : FrameInput) :
    (stepFrame cfg source st fr).processed_frames
      = if (st.frame_count + 1) % cfg.FRAME_SKIP ≠ 0 then st.processed_frames
        else st.processed_frames + 1 := by
  by_cases h1 : (st.frame_count + 1) % cfg.FRAME_SKIP ≠ 0
  · simp only [stepFrame, if_pos h1]
  · simp only [stepFrame, if_neg h1]
    split
    · split <;> rfl
    · rfl

lemma stepFrame_class_counts (cfg : Config) (source : String)
    (st : PipelineState) (fr : FrameInput) :
    (stepFrame cfg source st fr).class_counts
      = if (st.frame_count + 1) % cfg.FRAME_SKIP ≠ 0 then st.class_counts
        else foldSnapshot st.class_counts (buildFrame cfg.TARGET_CLASSES fr.dets).1 := by
  by_cases h1 : (st.frame_count + 1) % cfg.FRAME_SKIP ≠ 0
  · simp only [stepFrame, if_pos h1]
  · simp only [stepFrame, if_neg h1]
    split
    · split <;> rfl
    · rfl

lemma run_core_eq (cfg1 cfg2 : Config) (source1 source2 : String)
    (hskip : cfg1.FRAME_SKIP = cfg2.FRAME_SKIP)
    (htgt : cfg1.TARGET_CLASSES = cfg2.TARGET_CLASSES) :
    ∀ (frames1 frames2 : List FrameInput),
      frames1.map FrameInput.dets = frames2.map FrameInput.dets →
      ∀ (st1 st2 : PipelineState),
        st1.frame_count = st2.frame_count →
        st1.processed_frames = st2.processed_frames →
        st1.class_counts = st2.class_counts →
        (frames1.foldl (stepFrame cfg1 source1) st1).frame_count
            = (frames2.foldl (stepFrame cfg2 source2) st2).frame_count
        ∧ (frames1.foldl (stepFrame cfg1 source1) st1).processed_frames
            = (frames2.foldl (stepFrame cfg2 source2) st2).processed_frames
        ∧ (frames1.foldl (stepFrame cfg1 source1) st1).class_counts
            = (frames2.foldl (stepFrame cfg2 source2) st2).class_counts := by
  intro frames1
  induction frames1 with
  | nil =>
    intro frames2 hf st1 st2 h1 h2 h3
    cases frames2 with
    | nil => exact ⟨h1, h2, h3⟩
    | cons fr2 rest2 => simp at hf
  | cons fr1 rest1 ih =>
    intro frames2 hf st1 st2 h1 h2 h3
    cases frames2 with
    | nil => simp at hf
    | cons fr2 rest2 =>
      simp only [List.map_cons, List.cons.injEq] at hf
      rw [List.foldl_cons, List.foldl_cons]
      refine ih rest2 hf.2 _ _ ?_ ?_ ?_
      · rw [stepFrame_frame_count, stepFrame_frame_count, h1]
      · rw [stepFrame_processed, stepFrame_processed, h1, h2, hskip]
      · rw [stepFrame_class_counts, stepFrame_class_counts, h1, h3, hskip, htgt, hf.1]

lemma stepFrame_saved_not_db (cfg : Config) (source : String) (st : PipelineState)
    (fr : FrameInput) (hdb : cfg.dbConnected = false) :
    (stepFrame cfg source st fr).saved = st.saved := by
  by_cases h1 : (st.frame_count + 1) % cfg.FRAME_SKIP ≠ 0
  · simp only [stepFrame, if_pos h1]
  · simp only [stepFrame, if_neg h1, hdb]
    simp

lemma run_saved_not_db (cfg : Config) (source : String) (hdb : cfg.dbConnected = false) :
    ∀ (frames : List FrameInput) (st : PipelineState),
      (frames.foldl (stepFrame cfg source) st).saved = st.saved := by
  intro frames
  induction frames with
  | nil => intro st; rfl
  | cons fr rest ih =>
    intro st
    rw [List.foldl_cons, ih, stepFrame_saved_not_db cfg source st fr hdb]

/-! ## Concrete fixtures used by the closed witness theorems -/

/-- A configuration with every frame processed, no class filter and the DB
connected. -/
def demoCfg : Config :=
  { FRAME_SKIP := 1, TARGET_CLASSES := [], MODEL_NAME := "yolov8m.pt"
    CONFIDENCE_THRESHOLD := mkRat 1 2, dbConnected := true }

/-- A detection of class `c` with confidence `q` and a unit box. -/
def demoDet (c : String) (q : ℚ) : Detection :=
  { class_name := c, confidence := q, box := { x1 := 0, y1 := 0, x2 := 1, y2 := 1 } }

/-- Three frames: one car; nothing; a car and a bus.  All inserts succeed. -/
def demoFrames : List FrameInput :=
  [ { dets := [demoDet "car" (mkRat 9 10)], persistOk := true, now := 100 }
  , { dets := [], persistOk := true, now := 101 }
  , { dets := [demoDet "car" (mkRat 8 10), demoDet "bus" (mkRat 7 10)], persistOk := true, now := 102 } ]

/-- The document the first demo frame persists. -/
def demoEvent : DetectionEvent :=
  mkDocument demoCfg "sample.mp4" 100 1 1 [("car", 1)] [detection_data (demoDet "car" (mkRat 9 10))]

/-- C4.  Every document `process_video` persists satisfies the schema
invariant `len(detections) == sum(object_counts.values())`, for every
configuration, class filter and input stream. -/
theorem C4_detections_sum (cfg : Config) (source : String) (frames : List FrameInput)
    (e : DetectionEvent) (he : e ∈ (process_video cfg source frames).saved) :
    e.detections.length = sumSnap e.object_counts := by
  refine foldl_saved_inv cfg source
    (fun ev => ev.detections.length = sumSnap ev.object_counts) ?_ frames initState
    (fun x hx => absurd hx (List.not_mem_nil x)) e he
  intro now raw pn ds hne
  simp only [mkDocument]
  exact (buildFrame_sum cfg.TARGET_CLASSES ds).symm

/-- Witness for C4: the event persisted for the first demo frame is among
the saved documents and satisfies the invariant (1 detection, counts sum 1). -/
theorem C4_detections_sum_witness :
    demoEvent ∈ (process_video demoCfg "sample.mp4" demoFrames).saved
    ∧ demoEvent.detections.length = sumSnap demoEvent.object_counts :=
  ⟨by decide, C4_detections_sum demoCfg "sample.mp4" demoFrames demoEvent (by decide)⟩

/-- C9.  Persistence is invoked only for processed frames whose filtered
detection list is non-empty: every persisted document has a non-empty
`detections` list; a qualifying frame increments `processed_frames` even
when nothing is persisted for it; and there is a run whose persisted
`processed_frame_number` values are the non-contiguous [1, 3]. -/
theorem C9_persist_only_nonempty (cfg : Config) (source : String) (frames : List FrameInput) :
    (∀ e ∈ (process_video cfg source frames).saved, e.detections ≠ [])
    ∧ (∀ (st : PipelineState) (fr : FrameInput),
        (st.frame_count + 1) % cfg.FRAME_SKIP = 0 →
        (stepFrame cfg source st fr).processed_frames = st.processed_frames + 1)
    ∧ ∃ (cfg2 : Config) (source2 : String) (frames2 : List FrameInput),
        (process_video cfg2 source2 frames2).saved.map
          (fun e => e.processed_frame_number) = [1, 3] := by
  refine ⟨?_, ?_, demoCfg, "sample.mp4", demoFrames, by decide⟩
  · refine foldl_saved_inv cfg source (fun ev => ev.detections ≠ []) ?_ frames initState
      (fun x hx => absurd hx (List.not_mem_nil x))
    intro now raw pn ds hne
    simpa [mkDocument] using hne
  · intro st fr h
    rw [stepFrame_processed, if_neg (not_not_intro h)]

/-- C10.  In every persisted document, each `object_counts` key carries a
count of at least 1 that equals the number of stored detections of that
class, and `total_objects_detected` equals the length of the stored
detection list. -/
theorem C10_object_counts (cfg : Config) (source : String) (frames : List FrameInput)
    (e : DetectionEvent) (he : e ∈ (process_video cfg source frames).saved) :
    (∀ p ∈ e.object_counts, 1 ≤ p.2
        ∧ p.2 = e.detections.countP (fun d => d.class_name == p.1))
    ∧ e.total_objects_detected = e.detections.length := by
  refine foldl_saved_inv cfg source
    (fun ev => (∀ p ∈ ev.object_counts, 1 ≤ p.2
        ∧ p.2 = ev.detections.countP (fun d => d.class_name == p.1))
      ∧ ev.total_objects_detected = ev.detections.length) ?_ frames initState
    (fun x hx => absurd hx (List.not_mem_nil x)) e he
  intro now raw pn ds hne
  have hbc := buildFrame_counts cfg.TARGET_CLASSES ds
  simp only [mkDocument]
  refine ⟨?_, trivial⟩
  intro p hp
  obtain ⟨k, v⟩ := p
  refine ⟨hbc.2.1 (k, v) hp, ?_⟩
  have hval : snapVal (buildFrame cfg.TARGET_CLASSES ds).1 k = v :=
    snapVal_of_mem _ k v hbc.1 hp
  rw [← hval]
  exact hbc.2.2 k

/-- Witness for C10: in the first demo frame's persisted event, class car
has count 1 matching its one stored detection, and the total is 1. -/
theorem C10_object_counts_witness :
    demoEvent ∈ (process_video demoCfg "sample.mp4" demoFrames).saved
    ∧ ((∀ p ∈ demoEvent.object_counts, 1 ≤ p.2
          ∧ p.2 = demoEvent.detections.countP (fun d => d.class_name == p.1))
        ∧ demoEvent.total_objects_detected = demoEvent.detections.length) :=
  ⟨by decide, C10_object_counts demoCfg "sample.mp4" demoFrames demoEvent (by decide)⟩

/-- C7.  Store unavailability and persist failures never affect frame
consumption or in-memory aggregation: a run with the DB connected and
arbitrary per-frame insert outcomes has exactly the raw count, processed
count and running-max counters of the same stream run with the DB down
(which persists nothing); and a processed frame whose insert fails is
reported (error count increments), persists nothing, and still updates the
counters — the pipeline continues. -/
theorem C7_store_failure_resilience (cfg : Config) (source : String)
    (frames1 frames2 : List FrameInput)
    (hdets : frames1.map FrameInput.dets = frames2.map FrameInput.dets) :
    ((process_video cfg source frames1).frame_count
        = (process_video { cfg with dbConnected := false } source frames2).frame_count
      ∧ (process_video cfg source frames1).processed_frames
        = (process_video { cfg with dbConnected := false } source frames2).processed_frames
      ∧ (process_video cfg source frames1).class_counts
        = (process_video { cfg with dbConnected := false } source frames2).class_counts)
    ∧ (process_video { cfg with dbConnected := false } source frames2).saved = []
    ∧ ∀ (st : PipelineState) (fr : FrameInput),
        cfg.dbConnected = true →
        (st.frame_count + 1) % cfg.FRAME_SKIP = 0 →
        (buildFrame cfg.TARGET_CLASSES fr.dets).2 ≠ [] →
        fr.persistOk = false →
        (stepFrame cfg source st fr).insert_errors = st.insert_errors + 1
        ∧ (stepFrame cfg source st fr).saved = st.saved
        ∧ (stepFrame cfg source st fr).processed_frames = st.processed_frames + 1
        ∧ (stepFrame cfg source st fr).class_counts
            = foldSnapshot st.class_counts (buildFrame cfg.TARGET_CLASSES fr.dets).1 := by
  refine ⟨run_core_eq cfg { cfg with dbConnected := false } source source rfl rfl
      frames1 frames2 hdets initState initState rfl rfl rfl,
    run_saved_not_db { cfg with dbConnected := false } source rfl frames2 initState, ?_⟩
  intro st fr hdb hproc hne hok
  have h1 : ¬ (st.frame_count + 1) % cfg.FRAME_SKIP ≠ 0 := not_not_intro hproc
  have h2 : (cfg.dbConnected && !(buildFrame cfg.TARGET_CLASSES fr.dets).2.isEmpty) = true := by
    rw [hdb]
    simp [List.isEmpty_iff, hne]
  have h3 : ¬ fr.persistOk = true := by simp [hok]
  refine ⟨?_, ?_, ?_, ?_⟩ <;> simp only [stepFrame, if_neg h1, if_pos h2, if_neg h3]

/-- Witness for C7: the demo stream with all inserts failing, against the
demo stream with the DB down: identical counters, and the failing-insert
step on the first frame reports one error. -/
theorem C7_store_failure_resilience_witness :
    ([ ({ dets := [demoDet "car" (mkRat 9 10)], persistOk := false, now := 100 } : FrameInput) ].map
        FrameInput.dets
      = [ ({ dets := [demoDet "car" (mkRat 9 10)], persistOk := true, now := 200 } : FrameInput) ].map
        FrameInput.dets)
    ∧ (process_video demoCfg "sample.mp4"
        [ { dets := [demoDet "car" (mkRat 9 10)], persistOk := false, now := 100 } ]).processed_frames
      = (process_video { demoCfg with dbConnected := false } "sample.mp4"
        [ { dets := [demoDet "car" (mkRat 9 10)], persistOk := true, now := 200 } ]).processed_frames :=
  ⟨by decide,
    (C7_store_failure_resilience demoCfg "sample.mp4"
      [ { dets := [demoDet "car" (mkRat 9 10)], persistOk := false, now := 100 } ]
      [ { dets := [demoDet "car" (mkRat 9 10)], persistOk := true, now := 200 } ]
      (by decide)).1.2.1⟩

/-! ## Retention purge (database.py:174-194) and its CLI confirmation
(queary_db.py:184-191)

The collection is modelled as the list of stored documents;
`delete_many({"timestamp": {"$lt": cutoff}})` removes exactly the matching
documents and reports how many it removed. -/

/-- `delete_old_detections(days)` (database.py:174-194): compute
`cutoff = now - maxAge` and delete every event with `timestamp < cutoff`
(strictly); returns the remaining collection and `deleted_count`. -/
def delete_old_detections (events : List DetectionEvent) (now maxAge : ℤ) :
    List DetectionEvent × Nat :=
  ((events.filter fun e => !(decide (e.timestamp < now - maxAge))),
   (events.filter fun e => decide (e.timestamp < now - maxAge)).length)

lemma filter_length_partition (p : DetectionEvent → Bool) (l : List DetectionEvent) :
    (l.filter p).length + (l.filter (fun e => !(p e))).length = l.length := by
  induction l with
  | nil => rfl
  | cons e l ih =>
    by_cases h : p e = true
    · simp [List.filter_cons, h]
      omega
    · have hb : p e = false := by revert h; cases p e <;> simp
      simp [List.filter_cons, hb]
      omega

/-- C5.  The purge with cutoff `now - maxAge` keeps exactly the events with
`timestamp ≥ cutoff`: a stored event survives iff its timestamp is not
strictly below the cutoff (so a boundary event at exactly the cutoff
survives), and the returned count is the number of strictly-older events,
which together with the survivors accounts for the whole collection. -/
theorem C5_retention_purge (events : List DetectionEvent) (now maxAge : ℤ)
    (e : DetectionEvent) (he : e ∈ events) :
    (e ∈ (delete_old_detections events now maxAge).1 ↔ ¬ e.timestamp < now - maxAge)
    ∧ (e.timestamp = now - maxAge → e ∈ (delete_old_detections events now maxAge).1)
    ∧ (delete_old_detections events now maxAge).2
        = events.countP (fun x => decide (x.timestamp < now - maxAge))
    ∧ (delete_old_detections events now maxAge).2
        + (delete_old_detections events now maxAge).1.length = events.length := by
  refine ⟨?_, ?_, ?_, ?_⟩
  · simp [delete_old_detections, List.mem_filter, he]
  · intro hb
    simp [delete_old_detections, List.mem_filter, he, hb]
  · rw [List.countP_eq_length_filter]
    rfl
  · exact filter_length_partition (fun e => decide (e.timestamp < now - maxAge)) events

/-- An empty stored event with timestamp `t`, for the purge witnesses. -/
def purgeEvent (t : ℤ) : DetectionEvent :=
  { timestamp := t, video_source := "sample.mp4", frame_number := 1
    processed_frame_number := 1, total_objects_detected := 0, object_counts := []
    detections := [], model_info := { model_name := "yolov8m.pt", confidence_threshold := 1 } }

/-- Witness for C5: with events at times 5, 10, 15 and cutoff 20 - 10 = 10,
the boundary event at 10 survives and exactly one event is deleted. -/
theorem C5_retention_purge_witness :
    ((purgeEvent 10 ∈ (delete_old_detections [purgeEvent 5, purgeEvent 10, purgeEvent 15] 20 10).1
        ↔ ¬ (purgeEvent 10).timestamp < 20 - 10)
      ∧ ((purgeEvent 10).timestamp = 20 - 10 →
          purgeEvent 10 ∈ (delete_old_detections [purgeEvent 5, purgeEvent 10, purgeEvent 15] 20 10).1)
      ∧ (delete_old_detections [purgeEvent 5, purgeEvent 10, purgeEvent 15] 20 10).2
          = [purgeEvent 5, purgeEvent 10, purgeEvent 15].countP
              (fun x => decide (x.timestamp < 20 - 10))
      ∧ (delete_old_detections [purgeEvent 5, purgeEvent 10, purgeEvent 15] 20 10).2
          + (delete_old_detections [purgeEvent 5, purgeEvent 10, purgeEvent 15] 20 10).1.length
          = [purgeEvent 5, purgeEvent 10, purgeEvent 15].length)
    ∧ (delete_old_detections [purgeEvent 5, purgeEvent 10, purgeEvent 15] 20 10).2 = 1 :=
  ⟨C5_retention_purge [purgeEvent 5, purgeEvent 10, purgeEvent 15] 20 10 (purgeEvent 10)
      (by decide), by decide⟩

/-- Python’s `str.strip()` modelled on the character list: drop leading and
trailing whitespace. -/
def stripChars (cs : List Char) : List Char :=
  ((cs.dropWhile Char.isWhitespace).reverse.dropWhile Char.isWhitespace).reverse

/-- Python’s `str.lower()` modelled on the character list. -/
def lowerChars (cs : List Char) : List Char := cs.map Char.toLower

/-- The menu’s confirmation test
`input(...).strip().lower() == 'yes'` (queary_db.py:187). -/
def confirm_yes (confirm : String) : Bool :=
  lowerChars (stripChars confirm.data) == "yes".data

/-- Menu choice 6 (queary_db.py:184-191): after prompting for `days` and a
confirmation string, run `cleanup_old_data` only when the confirmation is
`yes`; otherwise print "Cleanup cancelled." and touch nothing.  Returns the
collection afterwards and `some deletedCount` when the purge ran. -/
def cleanup_choice (confirm : String) (events : List DetectionEvent) (now maxAge : ℤ) :
    List DetectionEvent × Option Nat :=
  if confirm_yes confirm then
    ((delete_old_detections events now maxAge).1,
      some (delete_old_detections events now maxAge).2)
  else (events, none)

/-- C8.  The destructive purge runs only behind the explicit confirmation:
on the one invocation path the program has (menu choice 6), any confirmation
input other than "yes" (after strip/lower) leaves the collection untouched
and performs no deletion. -/
theorem C8_purge_requires_confirmation (confirm : String) (events : List DetectionEvent)
    (now maxAge : ℤ) (h : confirm_yes confirm = false) :
    (cleanup_choice confirm events now maxAge).1 = events
    ∧ (cleanup_choice confirm events now maxAge).2 = none := by
  rw [cleanup_choice, if_neg (by simp [h])]
  exact ⟨rfl, rfl⟩

/-- Witness for C8: answering "no" deletes nothing. -/
theorem C8_purge_requires_confirmation_witness :
    confirm_yes "no" = false
    ∧ ((cleanup_choice "no" [purgeEvent 5] 20 10).1 = [purgeEvent 5]
        ∧ (cleanup_choice "no" [purgeEvent 5] 20 10).2 = none) :=
  ⟨by decide, C8_purge_requires_confirmation "no" [purgeEvent 5] 20 10 (by decide)⟩

/-! ## Aggregated per-class statistics (database.py:138-172)

`get_object_statistics` runs the pipeline `$unwind: "$detections"`, then
`$group` by `detections.class_name` computing `total_count` (sum of 1),
`avg_confidence`, `max_confidence`, `min_confidence`, then
`$sort: {"total_count": -1}`.  MongoDB specifies neither the `$group`
emission order nor the relative order of `$sort` ties; the model fixes both
deterministically as first-encounter order and a stable sort. -/

/-- One `$group` output row. -/
structure ClassStat where
  class_name : String
  total_count : Nat
  avg_confidence : ℚ
  min_confidence : ℚ
  max_confidence : ℚ
deriving DecidableEq, Repr

/-- `$unwind: "$detections"`: all stored detections of all events, in
storage order. -/
def unwindDetections (events : List DetectionEvent) : List StoredDetection :=
  (events.map DetectionEvent.detections).flatten

/-- Record a group key, appending it when new (first-encounter order). -/
def insertKey (ks : List String) (c : String) : List String :=
  if c ∈ ks then ks else ks ++ [c]

/-- The distinct `class_name` group keys, in first-encounter order. -/
def classKeys (dets : List StoredDetection) : List String :=
  dets.foldl (fun ks d => insertKey ks d.class_name) []

/-- The confidences of the detections of class `c`, in storage order. -/
def confidences (dets : List StoredDetection) (c : String) : List ℚ :=
  (dets.filter (fun d => d.class_name == c)).map StoredDetection.confidence

/-- `$min` over a group (the group is never empty; 0 is a dead default). -/
def qListMin : List ℚ → ℚ
  | [] => 0
  | x :: xs => xs.foldl min x

/-- `$max` over a group (the group is never empty; 0 is a dead default). -/
def qListMax : List ℚ → ℚ
  | [] => 0
  | x :: xs => xs.foldl max x

/-- The `$group` stage output for one class (database.py:156-162). -/
def classStat (dets : List StoredDetection) (c : String) : ClassStat :=
  { class_name := c
    total_count := (confidences dets c).length
    avg_confidence := (confidences dets c).sum / ((confidences dets c).length : ℚ)
    min_confidence := qListMin (confidences dets c)
    max_confidence := qListMax (confidences dets c) }

/-- Insert a row into a list sorted by `total_count` descending, before any
row of equal count (stable: the inserted row comes from an earlier
position). -/
def insertRow (r : ClassStat) : List ClassStat → List ClassStat
  | [] => [r]
  | s :: rest =>
    if s.total_count ≤ r.total_count then r :: s :: rest else s :: insertRow r rest

/-- `$sort: {"total_count": -1}` as a stable descending insertion sort. -/
def sortRows : List ClassStat → List ClassStat
  | [] => []
  | r :: rest => insertRow r (sortRows rest)

/-- `get_object_statistics` with no source filter (database.py:148-172). -/
def get_object_statistics (events : List DetectionEvent) : List ClassStat :=
  sortRows ((classKeys (unwindDetections events)).map
    (classStat (unwindDetections events)))

/-- Lexicographic `≤` on character lists. -/
def charListLe : List Char → List Char → Bool
  | [], _ => true
  | _ :: _, [] => false
  | a :: as, b :: bs => if a < b then true else if b < a then false else charListLe as bs

/-- The output ordering the specification asserts: `total_count` descending
with ties broken by `class_name` ascending. -/
def specRowsOrdered (rows : List ClassStat) : Prop :=
  rows.Pairwise (fun r s => s.total_count < r.total_count
    ∨ (r.total_count = s.total_count
        ∧ charListLe r.class_name.data s.class_name.data = true))

lemma insertRow_perm (r : ClassStat) (l : List ClassStat) :
    (insertRow r l).Perm (r :: l) := by
  induction l with
  | nil => exact List.Perm.refl _
  | cons s rest ih =>
    by_cases h : s.total_count ≤ r.total_count
    · rw [insertRow, if_pos h]
    · rw [insertRow, if_neg h]
      exact (ih.cons s).trans (List.Perm.swap r s rest)

lemma sortRows_perm (l : List ClassStat) : (sortRows l).Perm l := by
  induction l with
  | nil => exact List.Perm.refl _
  | cons r rest ih =>
    exact (insertRow_perm r (sortRows rest)).trans (ih.cons r)

lemma insertRow_pairwise (r : ClassStat) (m : List ClassStat)
    (hm : m.Pairwise (fun a b => b.total_count ≤ a.total_count)) :
    (insertRow r m).Pairwise (fun a b => b.total_count ≤ a.total_count) := by
  induction m with
  | nil => simp [insertRow]
  | cons s rest ih =>
    obtain ⟨hs, hrest⟩ := List.pairwise_cons.mp hm
    by_cases h : s.total_count ≤ r.total_count
    · rw [insertRow, if_pos h]
      refine List.pairwise_cons.mpr ⟨?_, hm⟩
      intro x hx
      rcases List.mem_cons.mp hx with hx | hx
      · rw [hx]
        exact h
      · exact (hs x hx).trans h
    · rw [insertRow, if_neg h]
      refine List.pairwise_cons.mpr ⟨?_, ih hrest⟩
      intro x hx
      rcases List.mem_cons.mp ((insertRow_perm r rest).mem_iff.mp hx) with hx | hx
      · rw [hx]
        exact le_of_not_le h
      · exact hs x hx

lemma sortRows_sorted (l : List ClassStat) :
    (sortRows l).Pairwise (fun a b => b.total_count ≤ a.total_count) := by
  induction l with
  | nil => exact List.Pairwise.nil
  | cons r rest ih => exact insertRow_pairwise r (sortRows rest) ih

lemma insertKey_mem (ks : List String) (c k : String) :
    k ∈ insertKey ks c ↔ k ∈ ks ∨ k = c := by
  unfold insertKey
  by_cases h : c ∈ ks
  · rw [if_pos h]
    constructor
    · exact Or.inl
    · intro hk
      rcases hk with hk | hk
      · exact hk
      · exact hk ▸ h
  · rw [if_neg h]
    simp

lemma insertKey_nodup (ks : List String) (c : String) (h : ks.Nodup) :
    (insertKey ks c).Nodup := by
  unfold insertKey
  by_cases hc : c ∈ ks
  · rw [if_pos hc]
    exact h
  · rw [if_neg hc]
    simp [List.nodup_append, h, hc]

lemma classKeys_aux_mem (dets : List StoredDetection) :
    ∀ (ks : List String) (k : String),
      k ∈ dets.foldl (fun ks d => insertKey ks d.class_name) ks
        ↔ k ∈ ks ∨ ∃ d ∈ dets, d.class_name = k := by
  induction dets with
  | nil => simp
  | cons d dets ih =>
    intro ks k
    rw [List.foldl_cons, ih, insertKey_mem]
    constructor
    · intro h
      rcases h with (h | h) | h
      · exact Or.inl h
      · exact Or.inr ⟨d, List.mem_cons_self d dets, h.symm⟩
      · obtain ⟨x, hx, hxk⟩ := h
        exact Or.inr ⟨x, List.mem_cons_of_mem d hx, hxk⟩
    · intro h
      rcases h with h | ⟨x, hx, hxk⟩
      · exact Or.inl (Or.inl h)
      · rcases List.mem_cons.mp hx with hx | hx
        · exact Or.inl (Or.inr (hx ▸ hxk).symm)
        · exact Or.inr ⟨x, hx, hxk⟩

lemma classKeys_aux_nodup (dets : List StoredDetection) :
    ∀ ks : List String, ks.Nodup →
      (dets.foldl (fun ks d => insertKey ks d.class_name) ks).Nodup := by
  induction dets with
  | nil => exact fun ks h => h
  | cons d dets ih =>
    intro ks h
    rw [List.foldl_cons]
    exact ih _ (insertKey_nodup ks d.class_name h)

lemma classKeys_mem (dets : List StoredDetection) (k : String) :
    k ∈ classKeys dets ↔ ∃ d ∈ dets, d.class_name = k := by
  rw [classKeys, classKeys_aux_mem]
  simp

lemma classKeys_nodup (dets : List StoredDetection) : (classKeys dets).Nodup :=
  classKeys_aux_nodup dets [] List.nodup_nil

lemma rows_map_class (dets : List StoredDetection) (ks : List String) :
    (ks.map (classStat dets)).map ClassStat.class_name = ks := by
  induction ks with
  | nil => rfl
  | cons k ks ih =>
    rw [List.map_cons, List.map_cons, ih]
    rfl

lemma confidences_ne_nil (dets : List StoredDetection) (c : String)
    (h : ∃ d ∈ dets, d.class_name = c) : confidences dets c ≠ [] := by
  obtain ⟨d, hd, hc⟩ := h
  have : d ∈ dets.filter (fun d => d.class_name == c) :=
    List.mem_filter.mpr ⟨hd, by simp [hc]⟩
  intro hnil
  rw [confidences] at hnil
  rw [List.map_eq_nil_iff] at hnil
  rw [hnil] at this
  exact List.not_mem_nil d this

lemma foldl_min_le (xs : List ℚ) :
    ∀ a : ℚ, xs.foldl min a ≤ a ∧ ∀ q ∈ xs, xs.foldl min a ≤ q := by
  induction xs with
  | nil => simp
  | cons x xs ih =>
    intro a
    refine ⟨((ih (min a x)).1).trans (min_le_left a x), ?_⟩
    intro q hq
    rcases List.mem_cons.mp hq with hq | hq
    · rw [hq]
      exact ((ih (min a x)).1).trans (min_le_right a x)
    · exact (ih (min a x)).2 q hq

lemma foldl_min_mem (xs : List ℚ) :
    ∀ a : ℚ, xs.foldl min a = a ∨ xs.foldl min a ∈ xs := by
  induction xs with
  | nil => exact fun a => Or.inl rfl
  | cons x xs ih =>
    intro a
    rw [List.foldl_cons]
    rcases ih (min a x) with h | h
    · rcases min_cases a x with ⟨he, _⟩ | ⟨he, _⟩
      · exact Or.inl (h.trans he)
      · refine Or.inr ?_
        rw [h, he]
        exact List.mem_cons_self x xs
    · exact Or.inr (List.mem_cons_of_mem x h)

lemma foldl_max_le (xs : List ℚ) :
    ∀ a : ℚ, a ≤ xs.foldl max a ∧ ∀ q ∈ xs, q ≤ xs.foldl max a := by
  induction xs with
  | nil => simp
  | cons x xs ih =>
    intro a
    refine ⟨(le_max_left a x).trans (ih (max a x)).1, ?_⟩
    intro q hq
    rcases List.mem_cons.mp hq with hq | hq
    · rw [hq]
      exact (le_max_right a x).trans (ih (max a x)).1
    · exact (ih (max a x)).2 q hq

lemma foldl_max_mem (xs : List ℚ) :
    ∀ a : ℚ, xs.foldl max a = a ∨ xs.foldl max a ∈ xs := by
  induction xs with
  | nil => exact fun a => Or.inl rfl
  | cons x xs ih =>
    intro a
    rw [List.foldl_cons]
    rcases ih (max a x) with h | h
    · rcases max_cases a x with ⟨he, _⟩ | ⟨he, _⟩
      · exact Or.inl (h.trans he)
      · refine Or.inr ?_
        rw [h, he]
        exact List.mem_cons_self x xs
    · exact Or.inr (List.mem_cons_of_mem x h)

lemma qListMin_mem (l : List ℚ) (h : l ≠ []) : qListMin l ∈ l := by
  cases l with
  | nil => exact absurd rfl h
  | cons x xs =>
    rw [qListMin]
    rcases foldl_min_mem xs x with hm | hm
    · rw [hm]
      exact List.mem_cons_self x xs
    · exact List.mem_cons_of_mem x hm

lemma qListMin_le (l : List ℚ) : ∀ q ∈ l, qListMin l ≤ q := by
  cases l with
  | nil => simp
  | cons x xs =>
    intro q hq
    rw [qListMin]
    rcases List.mem_cons.mp hq with hq | hq
    · exact hq ▸ (foldl_min_le xs x).1
    · exact (foldl_min_le xs x).2 q hq

lemma qListMax_mem (l : List ℚ) (h : l ≠ []) : qListMax l ∈ l := by
  cases l with
  | nil => exact absurd rfl h
  | cons x xs =>
    rw [qListMax]
    rcases foldl_max_mem xs x with hm | hm
    · rw [hm]
      exact List.mem_cons_self x xs
    · exact List.mem_cons_of_mem x hm

lemma qListMax_ge (l : List ℚ) : ∀ q ∈ l, q ≤ qListMax l := by
  cases l with
  | nil => simp
  | cons x xs =>
    intro q hq
    rw [qListMax]
    rcases List.mem_cons.mp hq with hq | hq
    · exact hq ▸ (foldl_max_le xs x).1
    · exact (foldl_max_le xs x).2 q hq

/-- C6 (amended).  `get_object_statistics` yields exactly one row per class
present in the stored detections; each row carries that class's detection
count (non-zero), its average confidence (sum over count), and its true
minimum and maximum confidence; and the rows are sorted by `total_count`
descending.  Ties keep the group emission (first-encounter) order — the
code's `$sort` key is `total_count` alone, so ties are NOT broken by
`class_name` ascending. -/
theorem C6_aggregate_stats (events : List DetectionEvent) :
    ((get_object_statistics events).map ClassStat.class_name).Perm
        (classKeys (unwindDetections events))
    ∧ ((get_object_statistics events).map ClassStat.class_name).Nodup
    ∧ (∀ c : String, (∃ r ∈ get_object_statistics events, r.class_name = c)
        ↔ ∃ d ∈ unwindDetections events, d.class_name = c)
    ∧ (∀ r ∈ get_object_statistics events,
        r.total_count = (confidences (unwindDetections events) r.class_name).length
        ∧ r.total_count ≠ 0
        ∧ r.avg_confidence = (confidences (unwindDetections events) r.class_name).sum
            / ((r.total_count : ℚ))
        ∧ r.min_confidence ∈ confidences (unwindDetections events) r.class_name
        ∧ (∀ q ∈ confidences (unwindDetections events) r.class_name, r.min_confidence ≤ q)
        ∧ r.max_confidence ∈ confidences (unwindDetections events) r.class_name
        ∧ (∀ q ∈ confidences (unwindDetections events) r.class_name, q ≤ r.max_confidence))
    ∧ (get_object_statistics events).Pairwise
        (fun r s => s.total_count ≤ r.total_count) := by
  have hperm : (get_object_statistics events).Perm
      ((classKeys (unwindDetections events)).map (classStat (unwindDetections events))) :=
    sortRows_perm _
  have hmapclass := rows_map_class (unwindDetections events) (classKeys (unwindDetections events))
  refine ⟨?_, ?_, ?_, ?_, sortRows_sorted _⟩
  · exact hmapclass ▸ hperm.map ClassStat.class_name
  · rw [List.Perm.nodup_iff (hmapclass ▸ hperm.map ClassStat.class_name)]
    exact classKeys_nodup _
  · intro c
    constructor
    · intro hr
      obtain ⟨r, hr, hc⟩ := hr
      obtain ⟨k, hk, hkr⟩ := List.mem_map.mp (hperm.mem_iff.mp hr)
      have hkc : k = c := by
        rw [← hc, ← hkr]
        rfl
      exact (classKeys_mem _ c).mp (hkc ▸ hk)
    · intro hd
      have hk := (classKeys_mem (unwindDetections events) c).mpr hd
      refine ⟨classStat (unwindDetections events) c, ?_, rfl⟩
      exact hperm.mem_iff.mpr (List.mem_map_of_mem _ hk)
  · intro r hr
    obtain ⟨k, hk, hkr⟩ := List.mem_map.mp (hperm.mem_iff.mp hr)
    have hne : confidences (unwindDetections events) k ≠ [] :=
      confidences_ne_nil _ k ((classKeys_mem _ k).mp hk)
    subst hkr
    refine ⟨rfl, ?_, rfl, qListMin_mem _ hne, qListMin_le _, qListMax_mem _ hne, qListMax_ge _⟩
    simp only [classStat]
    intro hz
    exact hne (List.length_eq_zero.mp hz)

/-- One stored detection of class `c` with confidence `q` and a unit box. -/
def cexStored (c : String) (q : ℚ) : StoredDetection :=
  { class_name := c, confidence := q
    bounding_box := { x1 := 0, y1 := 0, x2 := 1, y2 := 1 } }

/-- A one-event store whose detections are class "b" then class "a", one
each: both classes tie at `total_count = 1`. -/
def cexEvents : List DetectionEvent :=
  [ { timestamp := 0, video_source := "sample.mp4", frame_number := 1
      processed_frame_number := 1, total_objects_detected := 2
      object_counts := [("b", 1), ("a", 1)]
      detections := [cexStored "b" 1, cexStored "a" 1]
      model_info := { model_name := "yolov8m.pt", confidence_threshold := 1 } } ]

/-- Counterexample for C6 as stated: on `cexEvents` the two rows tie at
count 1 and come out in encounter order "b", "a" — not `class_name`
ascending, so the spec's claimed deterministic tie-break does not hold. -/
theorem C6_sort_counterexample :
    ¬ specRowsOrdered (get_object_statistics cexEvents)
    ∧ (get_object_statistics cexEvents).map ClassStat.class_name = ["b", "a"] := by
  constructor
  · unfold specRowsOrdered
    decide
  · decide

end Yolo
